import Mathlib

/-!
Shallow embedding of the tic-tac-toe server's core logic:
the board (`internal/game/board.go`), the game state machine
(`game.go`), the game store's pending-list pagination
(`internal/store/game_store.go`) and the stats store (`stats_store.go`).

Go's in-place mutation is modelled by explicit state passing: each
mutating operation returns the new state together with an optional
error, threading the state in the order the Go code mutates it, so
that "an error leaves the state unchanged" is a provable property
rather than a modelling artifact.  `time.Now()` is modelled by an
explicit `now : Nat` argument.  Go `int` becomes `Int`; the stats
counters are Go `int32`, modelled as `Int` with explicit wrap-around
at 2^31.
-/

namespace TicTacToe

/-- `Mark` mirrors Go's `Mark` (`MarkEmpty | MarkX | MarkO`). -/
inductive Mark where
  | empty
  | x
  | o
deriving DecidableEq, Repr

/-- `Mark.Opponent`: X ↔ O, Empty ↦ Empty. -/
def Mark.opponent : Mark → Mark
  | .x => .o
  | .o => .x
  | .empty => .empty

/-- `Status` mirrors Go's game `Status`. -/
inductive Status where
  | pending
  | inProgress
  | xWon
  | oWon
  | draw
deriving DecidableEq, Repr

/-- `Status.IsFinished`: true on the three terminal statuses. -/
def Status.isFinished (s : Status) : Bool :=
  s == .xWon || s == .oWon || s == .draw

/-- The sentinel errors of package `game` (`errors.New` values). -/
inductive GameError where
  | invalidBoardSize
  | invalidWinLength
  | invalidPosition
  | cellOccupied
  | gameNotInProgress
  | notYourTurn
  | playerNotInGame
  | gameAlreadyStarted
  | cannotJoinOwnGame
deriving DecidableEq, Repr

/-- `Board`: size, win length and the flat `Cells` slice (`row*Size+col`). -/
structure Board where
  size : Int
  winLength : Int
  cells : List Mark
deriving DecidableEq, Repr

/-- `NewBoard(size, winLength)`. -/
def newBoard (size winLength : Int) : Except GameError Board :=
  if size < 3 then .error .invalidBoardSize
  else if winLength < 3 || size < winLength then .error .invalidWinLength
  else .ok { size := size, winLength := winLength,
             cells := List.replicate (size * size).toNat Mark.empty }

/-- `isValidPosition(row, col)`. -/
def Board.isValidPosition (b : Board) (row col : Int) : Bool :=
  decide (0 ≤ row) && decide (row < b.size) && decide (0 ≤ col) && decide (col < b.size)

/-- The raw cell read `b.Cells[row*b.Size+col]` (only ever used behind an
`isValidPosition` guard, as in the Go code). -/
def Board.getCell (b : Board) (row col : Int) : Mark :=
  b.cells.getD (row * b.size + col).toNat Mark.empty

/-- `Set(row, col, mark)`: the returned board is the input board threaded
through the mutations the Go code performs before each return. -/
def Board.setM (b : Board) (row col : Int) (mark : Mark) : Board × Option GameError :=
  if !b.isValidPosition row col then (b, some .invalidPosition)
  else if b.getCell row col ≠ Mark.empty then (b, some .cellOccupied)
  else ({ b with cells := b.cells.set (row * b.size + col).toNat mark }, none)

/-- `IsFull()`. -/
def Board.isFull (b : Board) : Bool :=
  b.cells.all (fun c => c != Mark.empty)

/-- The loop body of `countInDirection`: starting at `(r, c)`, count
consecutive cells equal to `mark` stepping by `(dRow, dCol)`.  The Go
loop terminates because it stays inside the board; here it carries a
fuel argument, instantiated with `b.size.toNat`, which is enough for
the unit directions `CheckWinner` uses (a run of in-bounds cells along
a unit direction has length at most `size`). -/
def Board.countFrom (b : Board) (mark : Mark) (dRow dCol : Int) : Nat → Int → Int → Nat
  | 0, _, _ => 0
  | fuel + 1, r, c =>
    if b.isValidPosition r c && b.getCell r c == mark then
      b.countFrom mark dRow dCol fuel (r + dRow) (c + dCol) + 1
    else 0

/-- `countInDirection(row, col, dRow, dCol, mark)`. -/
def Board.countInDirection (b : Board) (row col dRow dCol : Int) (mark : Mark) : Nat :=
  b.countFrom mark dRow dCol b.size.toNat (row + dRow) (col + dCol)

/-- The four direction vectors `CheckWinner` scans, in source order. -/
def winDirections : List (Int × Int) := [(0, 1), (1, 0), (1, 1), (1, -1)]

/-- `CheckWinner(row, col)`. -/
def Board.checkWinner (b : Board) (row col : Int) : Mark :=
  let mark := b.getCell row col
  if !b.isValidPosition row col || mark == Mark.empty then Mark.empty
  else if winDirections.any (fun d =>
      decide ((b.winLength : Int) ≤
        1 + (b.countInDirection row col d.1 d.2 mark : Int)
          + (b.countInDirection row col (-d.1) (-d.2) mark : Int)))
  then mark
  else Mark.empty

/-- The invariant `NewBoard` establishes and `Set` preserves: bounds on
size and win length, and the `Cells` slice has length `size*size`. -/
def Board.WF (b : Board) : Prop :=
  3 ≤ b.size ∧ 3 ≤ b.winLength ∧ b.winLength ≤ b.size ∧
    b.cells.length = (b.size * b.size).toNat

/-- `Game` (the mutex is concurrency plumbing, timestamps are `Nat`). -/
structure Game where
  id : String
  playerX : String
  playerO : String
  board : Board
  turn : Mark
  status : Status
  createdAt : Nat
  updatedAt : Nat
deriving DecidableEq, Repr

/-- `NewGame(id, creatorID, boardSize, winLength)`. -/
def newGame (id creatorID : String) (boardSize winLength : Int) (now : Nat) :
    Except GameError Game :=
  match newBoard boardSize winLength with
  | .error e => .error e
  | .ok board =>
    .ok { id := id, playerX := creatorID, playerO := "", board := board,
          turn := .x, status := .pending, createdAt := now, updatedAt := now }

/-- `Join(playerID)`. -/
def Game.join (g : Game) (playerID : String) (now : Nat) : Game × Option GameError :=
  if g.status ≠ Status.pending then (g, some .gameAlreadyStarted)
  else if g.playerX = playerID then (g, some .cannotJoinOwnGame)
  else ({ g with playerO := playerID, status := .inProgress, updatedAt := now }, none)

/-- `getPlayerMark(playerID)`: Go's `switch` matches `PlayerX` first. -/
def Game.getPlayerMark (g : Game) (playerID : String) : Mark :=
  if playerID = g.playerX then .x
  else if playerID = g.playerO then .o
  else .empty

/-- `MakeMove(playerID, row, col)`, threading the board state from
`Set` and applying the post-placement updates in source order. -/
def Game.makeMove (g : Game) (playerID : String) (row col : Int) (now : Nat) :
    Game × Option GameError :=
  if g.status ≠ Status.inProgress then (g, some .gameNotInProgress)
  else if g.getPlayerMark playerID = Mark.empty then (g, some .playerNotInGame)
  else if g.turn ≠ g.getPlayerMark playerID then (g, some .notYourTurn)
  else
    match g.board.setM row col (g.getPlayerMark playerID) with
    | (b, some e) => ({ g with board := b }, some e)
    | (b, none) =>
      if b.checkWinner row col ≠ Mark.empty then
        if b.checkWinner row col = Mark.x then
          ({ g with board := b, updatedAt := now, status := .xWon }, none)
        else
          ({ g with board := b, updatedAt := now, status := .oWon }, none)
      else if b.isFull then
        ({ g with board := b, updatedAt := now, status := .draw }, none)
      else
        ({ g with board := b, updatedAt := now, turn := g.turn.opponent }, none)

/-- `GameSnapshot` (`GetSnapshot` deep-copies the board; copying by
value models `Clone`). -/
structure GameSnapshot where
  id : String
  playerX : String
  playerO : String
  board : Board
  turn : Mark
  status : Status
  createdAt : Nat
  updatedAt : Nat
deriving DecidableEq, Repr

/-- `GetSnapshot()`. -/
def Game.getSnapshot (g : Game) : GameSnapshot :=
  { id := g.id, playerX := g.playerX, playerO := g.playerO, board := g.board,
    turn := g.turn, status := g.status, createdAt := g.createdAt,
    updatedAt := g.updatedAt }

/-- `GameStore.ListPending(limit, offset)` over the store's games (the
shard/map iteration order is fixed by the list).  `none` models the Go
run-time panic of the slice expression `pending[offset:]` when
`offset` is negative; every other path returns normally. -/
def listPending (games : List Game) (limit offset : Int) :
    Option (List GameSnapshot × Nat) :=
  let pending := (games.filter (fun g => g.status == Status.pending)).map Game.getSnapshot
  let totalCount := pending.length
  if (totalCount : Int) ≤ offset then some ([], totalCount)
  else if offset < 0 then none
  else
    let page := pending.drop offset.toNat
    let page' := if 0 < limit ∧ (limit : Int) < page.length then page.take limit.toNat else page
    some (page', totalCount)

/-- `UserStats` counters are Go `int32`. -/
structure UserStats where
  wins : Int
  losses : Int
  draws : Int
deriving DecidableEq, Repr

/-- Wrap-around of Go's `int32` addition. -/
def int32wrap (n : Int) : Int := (n + 2 ^ 31) % 2 ^ 32 - 2 ^ 31

/-- The stats store, observationally: `getOrCreate` makes an absent
user indistinguishable from a present all-zero record, so the store is
a total map from user id to counters. -/
abbrev StatsStore := String → UserStats

/-- A user never recorded: all counters zero. -/
def emptyStatsStore : StatsStore := fun _ => { wins := 0, losses := 0, draws := 0 }

/-- `atomic.AddInt32(&stats.Wins, 1)`. -/
def bumpWin (st : UserStats) : UserStats := { st with wins := int32wrap (st.wins + 1) }

/-- `atomic.AddInt32(&stats.Losses, 1)`. -/
def bumpLoss (st : UserStats) : UserStats := { st with losses := int32wrap (st.losses + 1) }

/-- `atomic.AddInt32(&stats.Draws, 1)`. -/
def bumpDraw (st : UserStats) : UserStats := { st with draws := int32wrap (st.draws + 1) }

/-- `RecordWin(userID)`. -/
def StatsStore.recordWin (s : StatsStore) (userID : String) : StatsStore :=
  fun v => if v = userID then bumpWin (s userID) else s v

/-- `RecordLoss(userID)`. -/
def StatsStore.recordLoss (s : StatsStore) (userID : String) : StatsStore :=
  fun v => if v = userID then bumpLoss (s userID) else s v

/-- `RecordDraw(userID)`. -/
def StatsStore.recordDraw (s : StatsStore) (userID : String) : StatsStore :=
  fun v => if v = userID then bumpDraw (s userID) else s v

/-- `RecordGameResult(winnerID, loserID, isDraw)`. -/
def StatsStore.recordGameResult (s : StatsStore) (winnerID loserID : String)
    (isDraw : Bool) : StatsStore :=
  if isDraw then
    let s1 := if winnerID ≠ "" then s.recordDraw winnerID else s
    if loserID ≠ "" then s1.recordDraw loserID else s1
  else
    let s1 := if winnerID ≠ "" then s.recordWin winnerID else s
    if loserID ≠ "" then s1.recordLoss loserID else s1

/-! ### Spec-side predicates for the win condition -/

/-- The cell `(r, c)` exists on the board and holds `m`. -/
def Board.cellIs (b : Board) (r c : Int) (m : Mark) : Prop :=
  b.isValidPosition r c = true ∧ b.getCell r c = m

/-- Spec wording: the orientation `d` through `(row, col)` contains at
least `winLength` consecutive cells equal to `m`, including `(row, col)`
itself — `p` cells on the negative side, the origin, `q` cells on the
positive side. -/
def Board.lineThrough (b : Board) (row col : Int) (m : Mark) (d : Int × Int) : Prop :=
  ∃ p q : Nat, (b.winLength : Int) ≤ (p : Int) + 1 + (q : Int) ∧
    (∀ j : Nat, 1 ≤ j → j ≤ p → b.cellIs (row - (j : Int) * d.1) (col - (j : Int) * d.2) m) ∧
    (∀ j : Nat, 1 ≤ j → j ≤ q → b.cellIs (row + (j : Int) * d.1) (col + (j : Int) * d.2) m)

/-- Some orientation among the four contains a winning line through `(row, col)`. -/
def Board.hasWinLine (b : Board) (row col : Int) (m : Mark) : Prop :=
  ∃ d ∈ winDirections, b.lineThrough row col m d

/-! ### The game-store transition system -/

/-- One store-level operation on a single match: any `Join` or any
`MakeMove` call, successful or not; the resulting state is the state
component the operation returns. -/
inductive GStep : Game → Game → Prop where
  | join (g : Game) (pid : String) (now : Nat) : GStep g (g.join pid now).1
  | move (g : Game) (pid : String) (row col : Int) (now : Nat) :
      GStep g (g.makeMove pid row col now).1

/-- Position of a status along Pending → InProgress → terminal. -/
def statusRank : Status → Nat
  | .pending => 0
  | .inProgress => 1
  | .xWon => 2
  | .oWon => 2
  | .draw => 2

/-! ### Sample values used by the witness theorems -/

/-- The empty 3×3 board. -/
def board0 : Board := { size := 3, winLength := 3, cells := List.replicate 9 Mark.empty }

/-- A 3×3 board whose top row is three X's. -/
def boardWin : Board :=
  { size := 3, winLength := 3,
    cells := [Mark.x, Mark.x, Mark.x, Mark.o, Mark.o, Mark.empty,
              Mark.empty, Mark.empty, Mark.empty] }

/-- A freshly created pending game. -/
def gamePending : Game :=
  { id := "g1", playerX := "alice", playerO := "", board := board0,
    turn := .x, status := .pending, createdAt := 0, updatedAt := 0 }

/-- The game after bob joined: in progress, X to move. -/
def gameLive : Game := (gamePending.join "bob" 1).1

/-- A finished game (status XWon). -/
def gameDone : Game :=
  { id := "g2", playerX := "alice", playerO := "bob", board := boardWin,
    turn := .x, status := .xWon, createdAt := 0, updatedAt := 2 }

/-! ### Helper lemmas -/

theorem isValidPosition_iff (b : Board) (r c : Int) :
    b.isValidPosition r c = true ↔ 0 ≤ r ∧ r < b.size ∧ 0 ≤ c ∧ c < b.size := by
  simp [Board.isValidPosition, and_assoc]

theorem getD_set_ne {α : Type} (l : List α) (i j : Nat) (a d : α) (h : i ≠ j) :
    (l.set i a).getD j d = l.getD j d := by
  simp [List.getD_eq_getD_get?, List.get?_eq_getElem?, List.getElem?_set_ne h]

theorem setM_error_unchanged (b : Board) (row col : Int) (m : Mark) (e : GameError)
    (h : (b.setM row col m).2 = some e) : (b.setM row col m).1 = b := by
  unfold Board.setM at *
  split_ifs at * <;> simp_all

/-! ### C7: `NewBoard` validation and the all-empty grid -/

/-- C7: `NewBoard(size, winLength)` fails with `InvalidBoardSize` exactly
when `size < 3`, otherwise fails with `InvalidWinLength` exactly when
`winLength < 3` or `winLength > size`, and for every remaining pair
succeeds with a board of the given dimensions whose `size*size` cells
are all Empty. -/
theorem newBoard_spec (size winLength : Int) :
    (newBoard size winLength = .error .invalidBoardSize ↔ size < 3) ∧
    (newBoard size winLength = .error .invalidWinLength ↔
      3 ≤ size ∧ (winLength < 3 ∨ size < winLength)) ∧
    (3 ≤ winLength → winLength ≤ size →
      ∃ b, newBoard size winLength = .ok b ∧ b.size = size ∧ b.winLength = winLength ∧
        (b.cells.length : Int) = size * size ∧ ∀ m ∈ b.cells, m = Mark.empty) := by
  unfold newBoard
  split_ifs with h1 h2
  · refine ⟨by simp [h1], by simp; omega, ?_⟩
    intro h3 h4
    omega
  · simp only [decide_eq_true_eq, Bool.or_eq_true] at h2
    refine ⟨by simp; omega, by simp; omega, ?_⟩
    intro h3 h4
    omega
  · simp only [decide_eq_true_eq, Bool.or_eq_true] at h2
    push_neg at h1 h2
    refine ⟨by simp; omega, by simp; omega, ?_⟩
    intro h3 h4
    refine ⟨_, rfl, rfl, rfl, ?_, ?_⟩
    · have hnn : (0 : Int) ≤ size * size := mul_nonneg (by omega) (by omega)
      rw [List.length_replicate, Int.toNat_of_nonneg hnn]
    · intro m hm
      exact List.eq_of_mem_replicate hm

theorem newBoard_spec_witness :
    ∃ b, newBoard 4 3 = .ok b ∧ b.size = 4 ∧ b.winLength = 3 ∧
      (b.cells.length : Int) = 4 * 4 ∧ ∀ m ∈ b.cells, m = Mark.empty :=
  (newBoard_spec 4 3).2.2 (by norm_num) (by norm_num)

/-! ### C6: occupied cells are immutable -/

/-- C6: once a cell holds a non-Empty mark, `Set` with any mark
(including Empty) fails on it with `CellOccupied` and no `Set` call
whatsoever changes it. -/
theorem occupied_cell_immutable (b : Board) (row col : Int) (_hWF : b.WF)
    (hv : b.isValidPosition row col = true) (hne : b.getCell row col ≠ Mark.empty) :
    (∀ m : Mark, b.setM row col m = (b, some GameError.cellOccupied)) ∧
    (∀ (r c : Int) (m' : Mark), ((b.setM r c m').1).getCell row col = b.getCell row col) := by
  constructor
  · intro m
    unfold Board.setM
    rw [hv]
    simp [hne]
  · intro r c m'
    unfold Board.setM
    split_ifs with h1 h2
    · rfl
    · rfl
    · simp only [not_not] at *
      unfold Board.getCell
      by_cases hidx : (r * b.size + c).toNat = (row * b.size + col).toNat
      · exfalso
        apply hne
        unfold Board.getCell at h2
        rw [hidx] at h2
        exact h2
      · exact getD_set_ne _ _ _ _ _ hidx

theorem occupied_cell_immutable_witness :
    boardWin.setM 0 0 Mark.o = (boardWin, some GameError.cellOccupied) :=
  (occupied_cell_immutable boardWin 0 0 (by constructor <;> simp [boardWin, Board.WF])
    (by decide) (by decide)).1 Mark.o

/-! ### C10: `ListPending` panics exactly on negative offsets -/

/-- C10: a negative offset slips past the only guard (`offset >= len(pending)`)
and the slice `pending[offset:]` panics (the `none` branch of the
embedding); every offset ≥ 0 returns normally. -/
theorem listPending_negative_offset (games : List Game) (limit offset : Int) :
    (offset < 0 → listPending games limit offset = none) ∧
    (0 ≤ offset → ∃ r, listPending games limit offset = some r) := by
  constructor
  · intro hneg
    unfold listPending
    rw [if_neg (by omega), if_pos hneg]
  · intro hpos
    simp only [listPending]
    split_ifs with h1 h2
    · exact ⟨_, rfl⟩
    · omega
    · exact ⟨_, rfl⟩
    · exact ⟨_, rfl⟩

theorem listPending_negative_offset_witness :
    listPending [gamePending] 10 (-1) = none :=
  (listPending_negative_offset [gamePending] 10 (-1)).1 (by norm_num)

/-! ### Case-analysis helpers for `Join` and `MakeMove` -/

theorem join_cases (g : Game) (pid : String) (now : Nat) :
    (∃ e, g.join pid now = (g, some e)) ∨
    (g.status = Status.pending ∧
      g.join pid now =
        ({ g with playerO := pid, status := Status.inProgress, updatedAt := now }, none)) := by
  unfold Game.join
  split_ifs with h1 h2
  · exact .inl ⟨_, rfl⟩
  · exact .inl ⟨_, rfl⟩
  · push_neg at h1
    exact .inr ⟨h1, rfl⟩

theorem makeMove_cases (g : Game) (pid : String) (row col : Int) (now : Nat) :
    (∃ e, g.makeMove pid row col now = (g, some e)) ∨
    (g.status = Status.inProgress ∧ g.getPlayerMark pid ≠ Mark.empty ∧
      g.turn = g.getPlayerMark pid ∧ (g.makeMove pid row col now).2 = none ∧
      ((g.makeMove pid row col now).1.status = Status.inProgress ∨
       (g.makeMove pid row col now).1.status = Status.xWon ∨
       (g.makeMove pid row col now).1.status = Status.oWon ∨
       (g.makeMove pid row col now).1.status = Status.draw)) := by
  by_cases h1 : g.status ≠ Status.inProgress
  · exact .inl ⟨_, by unfold Game.makeMove; rw [if_pos h1]⟩
  by_cases h2 : g.getPlayerMark pid = Mark.empty
  · exact .inl ⟨_, by unfold Game.makeMove; rw [if_neg h1, if_pos h2]⟩
  by_cases h3 : g.turn ≠ g.getPlayerMark pid
  · exact .inl ⟨_, by unfold Game.makeMove; rw [if_neg h1, if_neg h2, if_pos h3]⟩
  push_neg at h1 h3
  rcases hsm : g.board.setM row col (g.getPlayerMark pid) with ⟨b', oe⟩
  cases oe with
  | some e =>
    left
    refine ⟨e, ?_⟩
    have hb : b' = g.board := by
      have h := setM_error_unchanged g.board row col (g.getPlayerMark pid) e
      rw [hsm] at h
      exact h rfl
    have hunf : g.makeMove pid row col now = ({ g with board := b' }, some e) := by
      unfold Game.makeMove
      rw [if_neg (by simp [h1]), if_neg h2, if_neg (by simp [h3]), hsm]
    rw [hunf, hb]
  | none =>
    right
    have hunf : g.makeMove pid row col now =
        (if b'.checkWinner row col ≠ Mark.empty then
          if b'.checkWinner row col = Mark.x then
            ({ g with board := b', updatedAt := now, status := .xWon }, none)
          else
            ({ g with board := b', updatedAt := now, status := .oWon }, none)
        else if b'.isFull then
          ({ g with board := b', updatedAt := now, status := .draw }, none)
        else
          ({ g with board := b', updatedAt := now, turn := g.turn.opponent }, none)) := by
      unfold Game.makeMove
      rw [if_neg (by simp [h1]), if_neg h2, if_neg (by simp [h3]), hsm]
    refine ⟨h1, h2, h3, ?_, ?_⟩
    · rw [hunf]
      split_ifs <;> rfl
    · rw [hunf]
      split_ifs <;> simp [h1]

/-! ### C5: failed operations leave the state exactly as it was -/

/-- C5: whenever `Join`, `MakeMove` or `Set` returns an error, the
returned state (every field: players, status, turn, board cells,
timestamps) is exactly the input state — no partial application. -/
theorem mutations_atomic :
    (∀ (g : Game) (pid : String) (now : Nat) (e : GameError),
        (g.join pid now).2 = some e → (g.join pid now).1 = g) ∧
    (∀ (g : Game) (pid : String) (row col : Int) (now : Nat) (e : GameError),
        (g.makeMove pid row col now).2 = some e → (g.makeMove pid row col now).1 = g) ∧
    (∀ (b : Board) (row col : Int) (m : Mark) (e : GameError),
        (b.setM row col m).2 = some e → (b.setM row col m).1 = b) := by
  refine ⟨?_, ?_, ?_⟩
  · intro g pid now e h
    rcases join_cases g pid now with ⟨e', he⟩ | ⟨_, he⟩
    · rw [he]
    · rw [he] at h
      simp at h
  · intro g pid row col now e h
    rcases makeMove_cases g pid row col now with ⟨e', he⟩ | ⟨_, _, _, h2, _⟩
    · rw [he]
    · rw [h2] at h
      simp at h
  · intro b row col m e h
    exact setM_error_unchanged b row col m e h

theorem mutations_atomic_witness : (gameLive.join "carol" 5).1 = gameLive :=
  mutations_atomic.1 gameLive "carol" 5 GameError.gameAlreadyStarted (by decide)

/-! ### C4: the exact errors, in the exact order -/

/-- C4: `MakeMove` fails with `GameNotInProgress`, `PlayerNotInGame`,
`NotYourTurn` in that order of checks, and otherwise propagates the
grid error unchanged; `Join` fails with `GameAlreadyStarted` then
`CannotJoinOwnGame`. -/
theorem error_precedence (g : Game) (pid : String) (row col : Int) (now : Nat) :
    (g.status ≠ Status.inProgress →
      g.makeMove pid row col now = (g, some GameError.gameNotInProgress)) ∧
    (g.status = Status.inProgress → pid ≠ g.playerX → pid ≠ g.playerO →
      g.makeMove pid row col now = (g, some GameError.playerNotInGame)) ∧
    (g.status = Status.inProgress → g.getPlayerMark pid ≠ Mark.empty →
      g.turn ≠ g.getPlayerMark pid →
      g.makeMove pid row col now = (g, some GameError.notYourTurn)) ∧
    (∀ e : GameError, g.status = Status.inProgress → g.getPlayerMark pid ≠ Mark.empty →
      g.turn = g.getPlayerMark pid →
      (g.board.setM row col (g.getPlayerMark pid)).2 = some e →
      (g.makeMove pid row col now).2 = some e) ∧
    (g.status ≠ Status.pending →
      g.join pid now = (g, some GameError.gameAlreadyStarted)) ∧
    (g.status = Status.pending → pid = g.playerX →
      g.join pid now = (g, some GameError.cannotJoinOwnGame)) := by
  refine ⟨?_, ?_, ?_, ?_, ?_, ?_⟩
  · intro h1
    unfold Game.makeMove
    rw [if_pos h1]
  · intro h1 hx ho
    have hm : g.getPlayerMark pid = Mark.empty := by
      unfold Game.getPlayerMark
      rw [if_neg hx, if_neg ho]
    unfold Game.makeMove
    rw [if_neg (by simp [h1]), if_pos hm]
  · intro h1 h2 h3
    unfold Game.makeMove
    rw [if_neg (by simp [h1]), if_neg h2, if_pos h3]
  · intro e h1 h2 h3 hset
    unfold Game.makeMove
    rw [if_neg (by simp [h1]), if_neg h2, if_neg (by simp [h3])]
    rcases hsm : g.board.setM row col (g.getPlayerMark pid) with ⟨b', oe⟩
    rw [hsm] at hset
    simp only at hset
    rw [hset]
  · intro h1
    unfold Game.join
    rw [if_pos h1]
  · intro h1 h2
    unfold Game.join
    rw [if_neg (by simp [h1]), if_pos h2.symm]

theorem error_precedence_witness :
    gameDone.makeMove "alice" 0 0 3 = (gameDone, some GameError.gameNotInProgress) :=
  (error_precedence gameDone "alice" 0 0 3).1 (by decide)

/-! ### C9: the stats store increments exactly the right counters -/

/-- C9: `RecordWin`/`RecordLoss`/`RecordDraw` bump exactly one counter
of exactly one user (by one, in `int32` arithmetic — literally `+1`
whenever the sum stays in `int32` range), and `RecordGameResult`
distributes the bumps to the two ids, skipping empty ids. -/
theorem stats_record_spec :
    (∀ (s : StatsStore) (u : String),
      (s.recordWin u) u = bumpWin (s u) ∧
      (s.recordLoss u) u = bumpLoss (s u) ∧
      (s.recordDraw u) u = bumpDraw (s u) ∧
      (∀ v, v ≠ u →
        (s.recordWin u) v = s v ∧ (s.recordLoss u) v = s v ∧ (s.recordDraw u) v = s v)) ∧
    (∀ st : UserStats,
      ((bumpWin st).losses = st.losses ∧ (bumpWin st).draws = st.draws ∧
        (-(2 ^ 31) ≤ st.wins + 1 → st.wins + 1 < 2 ^ 31 → (bumpWin st).wins = st.wins + 1)) ∧
      ((bumpLoss st).wins = st.wins ∧ (bumpLoss st).draws = st.draws ∧
        (-(2 ^ 31) ≤ st.losses + 1 → st.losses + 1 < 2 ^ 31 →
          (bumpLoss st).losses = st.losses + 1)) ∧
      ((bumpDraw st).wins = st.wins ∧ (bumpDraw st).losses = st.losses ∧
        (-(2 ^ 31) ≤ st.draws + 1 → st.draws + 1 < 2 ^ 31 →
          (bumpDraw st).draws = st.draws + 1))) ∧
    (∀ (s : StatsStore) (w l : String), w ≠ l →
      (w ≠ "" → s.recordGameResult w l true w = bumpDraw (s w)) ∧
      (l ≠ "" → s.recordGameResult w l true l = bumpDraw (s l)) ∧
      (∀ v, v ≠ w → v ≠ l → s.recordGameResult w l true v = s v) ∧
      (w = "" → ∀ v, v ≠ l → s.recordGameResult w l true v = s v) ∧
      (l = "" → ∀ v, v ≠ w → s.recordGameResult w l true v = s v) ∧
      (w ≠ "" → s.recordGameResult w l false w = bumpWin (s w)) ∧
      (l ≠ "" → s.recordGameResult w l false l = bumpLoss (s l)) ∧
      (∀ v, v ≠ w → v ≠ l → s.recordGameResult w l false v = s v) ∧
      (w = "" → ∀ v, v ≠ l → s.recordGameResult w l false v = s v) ∧
      (l = "" → ∀ v, v ≠ w → s.recordGameResult w l false v = s v)) := by
  refine ⟨?_, ?_, ?_⟩
  · intro s u
    refine ⟨?_, ?_, ?_, ?_⟩
    · simp [StatsStore.recordWin]
    · simp [StatsStore.recordLoss]
    · simp [StatsStore.recordDraw]
    · intro v hv
      simp [StatsStore.recordWin, StatsStore.recordLoss, StatsStore.recordDraw, hv]
  · intro st
    refine ⟨⟨rfl, rfl, ?_⟩, ⟨rfl, rfl, ?_⟩, ⟨rfl, rfl, ?_⟩⟩ <;>
      · intro ha hb
        simp only [bumpWin, bumpLoss, bumpDraw, int32wrap]
        norm_num at ha hb ⊢
        omega
  · intro s w l hwl
    refine ⟨?_, ?_, ?_, ?_, ?_, ?_, ?_, ?_, ?_, ?_⟩ <;>
      simp only [StatsStore.recordGameResult, if_true, Bool.false_eq_true, if_false]
    · intro hw
      split_ifs with h1 <;>
        simp_all [StatsStore.recordDraw, hwl, Ne.symm hwl]
    · intro hl
      split_ifs with h1 <;> simp_all [StatsStore.recordDraw, Ne.symm hwl]
    · intro v hvw hvl
      split_ifs with h1 <;> simp_all [StatsStore.recordDraw]
    · intro hw v hvl
      split_ifs with h1 <;> simp_all [StatsStore.recordDraw]
    · intro hl v hvw
      split_ifs with h1 <;> simp_all [StatsStore.recordDraw]
    · intro hw
      split_ifs with h1 <;>
        simp_all [StatsStore.recordWin, StatsStore.recordLoss, hwl, Ne.symm hwl]
    · intro hl
      split_ifs with h1 <;>
        simp_all [StatsStore.recordWin, StatsStore.recordLoss, Ne.symm hwl]
    · intro v hvw hvl
      split_ifs with h1 <;> simp_all [StatsStore.recordWin, StatsStore.recordLoss]
    · intro hw v hvl
      split_ifs with h1 <;> simp_all [StatsStore.recordWin, StatsStore.recordLoss]
    · intro hl v hvw
      split_ifs with h1 <;> simp_all [StatsStore.recordWin, StatsStore.recordLoss]

theorem stats_record_spec_witness :
    (emptyStatsStore.recordGameResult "ann" "bob" false) "ann" =
      bumpWin (emptyStatsStore "ann") :=
  ((stats_record_spec.2.2 emptyStatsStore "ann" "bob" (by decide)).2.2.2.2.2.1) (by decide)

/-! ### C8: `ListPending` pagination -/

/-- C8: for every non-negative offset, `ListPending` returns the
snapshots of exactly the pending matches with offset and then limit
applied, together with the pre-pagination total; an offset at or past
the total yields an empty page with that same total. -/
theorem listPending_paginates (games : List Game) (limit offset : Int) (h0 : 0 ≤ offset) :
    ∃ page : List GameSnapshot,
      listPending games limit offset =
        some (page,
          ((games.filter (fun g => g.status == Status.pending)).map Game.getSnapshot).length) ∧
      page = (if 0 < limit
        then (((games.filter (fun g => g.status == Status.pending)).map
                Game.getSnapshot).drop offset.toNat).take limit.toNat
        else ((games.filter (fun g => g.status == Status.pending)).map
                Game.getSnapshot).drop offset.toNat) ∧
      ((((games.filter (fun g => g.status == Status.pending)).map
          Game.getSnapshot).length : Int) ≤ offset → page = []) := by
  simp only [listPending]
  set L := (games.filter (fun g => g.status == Status.pending)).map Game.getSnapshot with hL
  by_cases h1 : (L.length : Int) ≤ offset
  · rw [if_pos h1]
    refine ⟨[], rfl, ?_, fun _ => rfl⟩
    have hdrop : L.drop offset.toNat = [] := List.drop_eq_nil_of_le (by omega)
    rw [hdrop]
    by_cases h2 : 0 < limit
    · rw [if_pos h2, List.take_nil]
    · rw [if_neg h2]
  · rw [if_neg h1, if_neg (by omega : ¬ offset < 0)]
    by_cases h2 : 0 < limit ∧ (limit : Int) < (L.drop offset.toNat).length
    · rw [if_pos h2, if_pos h2.1]
      exact ⟨_, rfl, rfl, fun hc => absurd hc h1⟩
    · rw [if_neg h2]
      by_cases h3 : 0 < limit
      · rw [if_pos h3]
        have hlen : (L.drop offset.toNat).length ≤ limit.toNat := by
          push_neg at h2
          have := h2 h3
          omega
        rw [List.take_of_length_le hlen]
        exact ⟨_, rfl, rfl, fun hc => absurd hc h1⟩
      · rw [if_neg h3]
        exact ⟨_, rfl, rfl, fun hc => absurd hc h1⟩

theorem listPending_paginates_witness :
    ∃ page : List GameSnapshot,
      listPending [gamePending, gameDone] 1 0 =
        some (page,
          (([gamePending, gameDone].filter (fun g => g.status == Status.pending)).map
            Game.getSnapshot).length) ∧
      page = (if (0 : Int) < 1
        then ((([gamePending, gameDone].filter (fun g => g.status == Status.pending)).map
                Game.getSnapshot).drop (0 : Int).toNat).take (1 : Int).toNat
        else (([gamePending, gameDone].filter (fun g => g.status == Status.pending)).map
                Game.getSnapshot).drop (0 : Int).toNat) ∧
      (((([gamePending, gameDone].filter (fun g => g.status == Status.pending)).map
          Game.getSnapshot).length : Int) ≤ 0 → page = []) :=
  listPending_paginates [gamePending, gameDone] 1 0 (by norm_num)

/-! ### C1: successful moves update status and turn as specified -/

/-- C1: a successful `MakeMove` from InProgress ends with status XWon
or OWon (turn untouched) when `CheckWinner` reports a mark at the
move's cell, Draw when the grid is full, and otherwise stays
InProgress with the turn flipped to the mover's opponent. -/
theorem makeMove_success_transitions (g : Game) (pid : String) (row col : Int) (now : Nat)
    (g' : Game) (_hs : g.status = Status.inProgress)
    (h : g.makeMove pid row col now = (g', none)) :
    (∀ m : Mark, m ≠ Mark.empty → g'.board.checkWinner row col = m →
      (m = Mark.x → g'.status = Status.xWon) ∧ (m = Mark.o → g'.status = Status.oWon) ∧
      g'.turn = g.turn) ∧
    (g'.board.checkWinner row col = Mark.empty → g'.board.isFull = true →
      g'.status = Status.draw) ∧
    (g'.board.checkWinner row col = Mark.empty → g'.board.isFull = false →
      g'.status = Status.inProgress ∧ g'.turn = (g.getPlayerMark pid).opponent) := by
  unfold Game.makeMove at h
  split_ifs at h with h1 h2 h3
  · exact absurd (congrArg Prod.snd h) (by simp)
  · exact absurd (congrArg Prod.snd h) (by simp)
  · exact absurd (congrArg Prod.snd h) (by simp)
  rcases hsm : g.board.setM row col (g.getPlayerMark pid) with ⟨b', oe⟩
  rw [hsm] at h
  cases oe with
  | some e => simp at h
  | none =>
    simp only at h
    push_neg at h1 h3
    split_ifs at h with hw hx hf
    · obtain rfl : g' = { g with board := b', updatedAt := now, status := .xWon } :=
        (congrArg Prod.fst h).symm
      refine ⟨?_, ?_, ?_⟩
      · intro m _ hcw
        simp only at hcw
        refine ⟨fun _ => rfl, fun hmo => ?_, rfl⟩
        have hmx : m = Mark.x := hcw.symm.trans hx
        rw [hmo] at hmx
        cases hmx
      · intro hcw
        simp only at hcw
        cases hx.symm.trans hcw
      · intro hcw
        simp only at hcw
        cases hx.symm.trans hcw
    · obtain rfl : g' = { g with board := b', updatedAt := now, status := .oWon } :=
        (congrArg Prod.fst h).symm
      refine ⟨?_, ?_, ?_⟩
      · intro m _ hcw
        simp only at hcw
        exact ⟨fun hmx => absurd (hcw.trans hmx) hx, fun _ => rfl, rfl⟩
      · intro hcw
        simp only at hcw
        exact absurd hcw hw
      · intro hcw
        simp only at hcw
        exact absurd hcw hw
    · obtain rfl : g' = { g with board := b', updatedAt := now, status := .draw } :=
        (congrArg Prod.fst h).symm
      push_neg at hw
      refine ⟨?_, ?_, ?_⟩
      · intro m hm hcw
        simp only at hcw
        exact absurd (hcw.symm.trans hw) hm
      · intro _ _
        rfl
      · intro _ hfull
        simp only at hfull
        rw [hf] at hfull
        cases hfull
    · obtain rfl : g' = { g with board := b', updatedAt := now, turn := g.turn.opponent } :=
        (congrArg Prod.fst h).symm
      push_neg at hw
      refine ⟨?_, ?_, ?_⟩
      · intro m hm hcw
        simp only at hcw
        exact absurd (hcw.symm.trans hw) hm
      · intro _ hfull
        simp only at hfull
        exact absurd hfull hf
      · intro _ _
        exact ⟨h1, congrArg Mark.opponent h3⟩

/-! ### Counting lemmas for `countInDirection` -/

theorem succ_step (r dR : Int) (j : Nat) :
    r + ((j + 1 : Nat) : Int) * dR = (r + dR) + (j : Int) * dR := by
  push_cast
  ring

theorem neg_step (r dR : Int) (j : Nat) : r + (j : Int) * (-dR) = r - (j : Int) * dR := by
  ring

theorem countFrom_succ (b : Board) (m : Mark) (dR dC : Int) (fuel : Nat) (r c : Int) :
    b.countFrom m dR dC (fuel + 1) r c =
      if b.isValidPosition r c && b.getCell r c == m then
        b.countFrom m dR dC fuel (r + dR) (c + dC) + 1
      else 0 := rfl

theorem cellIs_iff_cond (b : Board) (r c : Int) (m : Mark) :
    (b.isValidPosition r c && b.getCell r c == m) = true ↔ b.cellIs r c m := by
  simp [Board.cellIs, Bool.and_eq_true, beq_iff_eq]

theorem countFrom_matches (b : Board) (m : Mark) (dR dC : Int) :
    ∀ (fuel : Nat) (r c : Int) (i : Nat), i < b.countFrom m dR dC fuel r c →
      b.cellIs (r + (i : Int) * dR) (c + (i : Int) * dC) m := by
  intro fuel
  induction fuel with
  | zero =>
    intro r c i h
    exact absurd h (by simp [Board.countFrom])
  | succ n ih =>
    intro r c i h
    rw [countFrom_succ] at h
    split at h
    · rename_i hcond
      rcases i with _ | j
      · have hc := (cellIs_iff_cond b r c m).1 hcond
        simpa using hc
      · rw [succ_step, succ_step]
        exact ih (r + dR) (c + dC) j (by omega)
    · omega

theorem le_countFrom (b : Board) (m : Mark) (dR dC : Int) :
    ∀ (fuel : Nat) (r c : Int) (j : Nat), j ≤ fuel →
      (∀ i : Nat, i < j → b.cellIs (r + (i : Int) * dR) (c + (i : Int) * dC) m) →
      j ≤ b.countFrom m dR dC fuel r c := by
  intro fuel
  induction fuel with
  | zero =>
    intro r c j hj _
    exact hj
  | succ n ih =>
    intro r c j hj hall
    rcases j with _ | k
    · exact Nat.zero_le _
    · have h0 : b.cellIs r c m := by simpa using hall 0 (Nat.succ_pos k)
      rw [countFrom_succ, if_pos ((cellIs_iff_cond b r c m).2 h0)]
      have hk : k ≤ b.countFrom m dR dC n (r + dR) (c + dC) := by
        apply ih
        · omega
        · intro i hi
          have hnext := hall (i + 1) (by omega)
          rw [succ_step, succ_step] at hnext
          exact hnext
      omega

theorem countInDirection_matches (b : Board) (row col dR dC : Int) (m : Mark) (j : Nat)
    (h1 : 1 ≤ j) (h2 : j ≤ b.countInDirection row col dR dC m) :
    b.cellIs (row + (j : Int) * dR) (col + (j : Int) * dC) m := by
  obtain ⟨i, rfl⟩ : ∃ i : Nat, j = i + 1 := ⟨j - 1, by omega⟩
  simp only [Board.countInDirection] at h2
  have h3 := countFrom_matches b m dR dC b.size.toNat (row + dR) (col + dC) i (by omega)
  rw [succ_step, succ_step]
  exact h3

theorem le_countInDirection (b : Board) (row col dR dC : Int) (m : Mark) (q : Nat)
    (hq : q ≤ b.size.toNat)
    (h : ∀ j : Nat, 1 ≤ j → j ≤ q →
      b.cellIs (row + (j : Int) * dR) (col + (j : Int) * dC) m) :
    q ≤ b.countInDirection row col dR dC m := by
  simp only [Board.countInDirection]
  apply le_countFrom b m dR dC b.size.toNat (row + dR) (col + dC) q hq
  intro i hi
  have hnext := h (i + 1) (by omega) (by omega)
  rw [succ_step, succ_step] at hnext
  exact hnext

/-- A run of `q` in-bounds coordinates advancing by `δ = ±1` cannot be
longer than the board size. -/
theorem run_le_size (s x δ : Int) (hδ : δ = 1 ∨ δ = -1) (hs : 0 ≤ s) (q : Nat)
    (h : ∀ j : Nat, 1 ≤ j → j ≤ q → 0 ≤ x + (j : Int) * δ ∧ x + (j : Int) * δ < s) :
    (q : Int) ≤ s := by
  rcases Nat.eq_zero_or_pos q with rfl | hq
  · simpa using hs
  · have h1 := h 1 (le_refl 1) hq
    have h2 := h q hq (le_refl q)
    rcases hδ with rfl | rfl <;> push_cast at h1 h2 ⊢ <;> omega

theorem dir_run_bound (b : Board) (row col : Int) (m : Mark) (hs : 0 ≤ b.size)
    (dR dC : Int) (hd : dR = 1 ∨ dR = -1 ∨ dC = 1 ∨ dC = -1) (q : Nat)
    (h : ∀ j : Nat, 1 ≤ j → j ≤ q →
      b.cellIs (row + (j : Int) * dR) (col + (j : Int) * dC) m) :
    q ≤ b.size.toNat := by
  have hq : (q : Int) ≤ b.size := by
    rcases hd with h1 | h1 | h1 | h1
    · refine run_le_size b.size row dR (Or.inl h1) hs q fun j hj1 hj2 => ?_
      have hv := (isValidPosition_iff b _ _).1 ((h j hj1 hj2).1)
      exact ⟨hv.1, hv.2.1⟩
    · refine run_le_size b.size row dR (Or.inr h1) hs q fun j hj1 hj2 => ?_
      have hv := (isValidPosition_iff b _ _).1 ((h j hj1 hj2).1)
      exact ⟨hv.1, hv.2.1⟩
    · refine run_le_size b.size col dC (Or.inl h1) hs q fun j hj1 hj2 => ?_
      have hv := (isValidPosition_iff b _ _).1 ((h j hj1 hj2).1)
      exact ⟨hv.2.2.1, hv.2.2.2⟩
    · refine run_le_size b.size col dC (Or.inr h1) hs q fun j hj1 hj2 => ?_
      have hv := (isValidPosition_iff b _ _).1 ((h j hj1 hj2).1)
      exact ⟨hv.2.2.1, hv.2.2.2⟩
  omega

theorem winDirections_unit :
    ∀ d ∈ winDirections,
      (d.1 = 1 ∨ d.1 = -1 ∨ d.2 = 1 ∨ d.2 = -1) ∧
      (-d.1 = 1 ∨ -d.1 = -1 ∨ -d.2 = 1 ∨ -d.2 = -1) := by
  decide

theorem dirCount_iff (b : Board) (row col : Int) (m : Mark)
    (hv : b.isValidPosition row col = true) (d : Int × Int) (hd : d ∈ winDirections) :
    ((b.winLength : Int) ≤
        1 + (b.countInDirection row col d.1 d.2 m : Int)
          + (b.countInDirection row col (-d.1) (-d.2) m : Int)) ↔
      b.lineThrough row col m d := by
  have hs : 0 ≤ b.size := by
    have hvv := (isValidPosition_iff b row col).1 hv
    omega
  constructor
  · intro hlen
    refine ⟨b.countInDirection row col (-d.1) (-d.2) m,
            b.countInDirection row col d.1 d.2 m, by omega, ?_, ?_⟩
    · intro j hj1 hj2
      have hcell := countInDirection_matches b row col (-d.1) (-d.2) m j hj1 hj2
      rw [neg_step, neg_step] at hcell
      exact hcell
    · intro j hj1 hj2
      exact countInDirection_matches b row col d.1 d.2 m j hj1 hj2
  · rintro ⟨p, q, hlen, hback, hfwd⟩
    have hd4 := winDirections_unit d hd
    have hqb : q ≤ b.size.toNat := dir_run_bound b row col m hs d.1 d.2 hd4.1 q hfwd
    have hpb : p ≤ b.size.toNat := by
      refine dir_run_bound b row col m hs (-d.1) (-d.2) hd4.2 p fun j hj1 hj2 => ?_
      rw [neg_step, neg_step]
      exact hback j hj1 hj2
    have hq2 : q ≤ b.countInDirection row col d.1 d.2 m :=
      le_countInDirection b row col d.1 d.2 m q hqb hfwd
    have hp2 : p ≤ b.countInDirection row col (-d.1) (-d.2) m := by
      refine le_countInDirection b row col (-d.1) (-d.2) m p hpb fun j hj1 hj2 => ?_
      rw [neg_step, neg_step]
      exact hback j hj1 hj2
    omega

/-! ### C2: `CheckWinner` finds exactly the winning lines through the cell -/

/-- C2: for a non-Empty mark `m` at an in-bounds `(row, col)`,
`CheckWinner` returns `m` iff one of the four orientations through the
cell carries at least `winLength` consecutive `m`-cells including the
cell itself; in every other case (no line, empty cell, out of bounds)
it returns Empty. -/
theorem checkWinner_spec (b : Board) (row col : Int) (_hWF : b.WF) :
    (∀ m : Mark, m ≠ Mark.empty → b.isValidPosition row col = true →
      b.getCell row col = m →
      (b.checkWinner row col = m ↔ b.hasWinLine row col m) ∧
      (¬ b.hasWinLine row col m → b.checkWinner row col = Mark.empty)) ∧
    (b.isValidPosition row col = false → b.checkWinner row col = Mark.empty) ∧
    (b.getCell row col = Mark.empty → b.checkWinner row col = Mark.empty) := by
  refine ⟨?_, ?_, ?_⟩
  · intro m hm hv hc
    have hcw : b.checkWinner row col =
        (if winDirections.any (fun d =>
            decide ((b.winLength : Int) ≤
              1 + (b.countInDirection row col d.1 d.2 m : Int)
                + (b.countInDirection row col (-d.1) (-d.2) m : Int))) = true
         then m else Mark.empty) := by
      simp only [Board.checkWinner, hc]
      have hcond : (!b.isValidPosition row col || (m == Mark.empty)) = false := by
        rw [hv]
        simpa using hm
      simp only [hcond, Bool.false_eq_true, if_false]
    have hiff : (winDirections.any (fun d =>
        decide ((b.winLength : Int) ≤
          1 + (b.countInDirection row col d.1 d.2 m : Int)
            + (b.countInDirection row col (-d.1) (-d.2) m : Int))) = true) ↔
        b.hasWinLine row col m := by
      rw [List.any_eq_true]
      constructor
      · rintro ⟨d, hd, hdec⟩
        rw [decide_eq_true_eq] at hdec
        exact ⟨d, hd, (dirCount_iff b row col m hv d hd).1 hdec⟩
      · rintro ⟨d, hd, hline⟩
        refine ⟨d, hd, ?_⟩
        rw [decide_eq_true_eq]
        exact (dirCount_iff b row col m hv d hd).2 hline
    by_cases hA : winDirections.any (fun d =>
        decide ((b.winLength : Int) ≤
          1 + (b.countInDirection row col d.1 d.2 m : Int)
            + (b.countInDirection row col (-d.1) (-d.2) m : Int))) = true
    · have hline := hiff.1 hA
      have hcm : b.checkWinner row col = m := by rw [hcw, if_pos hA]
      exact ⟨⟨fun _ => hline, fun _ => hcm⟩, fun hn => absurd hline hn⟩
    · have hnoline : ¬ b.hasWinLine row col m := fun hl => hA (hiff.2 hl)
      have hce : b.checkWinner row col = Mark.empty := by rw [hcw, if_neg hA]
      refine ⟨⟨fun hEq => absurd (hce.symm.trans hEq) (Ne.symm hm),
        fun hl => absurd hl hnoline⟩, fun _ => hce⟩
  · intro hv2
    simp only [Board.checkWinner]
    have hcond : (!b.isValidPosition row col || (b.getCell row col == Mark.empty)) = true := by
      rw [hv2]
      rfl
    simp only [hcond, if_true]
  · intro hc0
    simp only [Board.checkWinner]
    have hcond : (!b.isValidPosition row col || (b.getCell row col == Mark.empty)) = true := by
      rw [hc0]
      simp
    simp only [hcond, if_true]

theorem checkWinner_spec_witness : boardWin.hasWinLine 0 0 Mark.x :=
  (((checkWinner_spec boardWin 0 0 (by unfold Board.WF; decide)).1 Mark.x (by decide)
    (by decide) (by decide)).1).mp (by decide)

/-! ### C3: the status only ever advances Pending → InProgress → terminal -/

/-- C3: along any sequence of `Join`/`MakeMove` calls the status moves
only forward along Pending → InProgress → {XWon, OWon, Draw}: Pending
can only stay or become InProgress, terminal statuses never change,
the rank never decreases, and the only Pending → InProgress transition
is a successful `Join`. -/
theorem status_machine :
    (∀ g g' : Game, GStep g g' →
      (g.status = Status.pending →
        g'.status = Status.pending ∨ g'.status = Status.inProgress) ∧
      (g.status.isFinished = true → g'.status = g.status) ∧
      statusRank g.status ≤ statusRank g'.status ∧
      (g.status = Status.pending → g'.status = Status.inProgress →
        ∃ pid now, g.join pid now = (g', none))) ∧
    (∀ (g : Game) (pid : String) (now : Nat) (g' : Game),
      g.join pid now = (g', none) →
      g.status = Status.pending ∧ g'.status = Status.inProgress) ∧
    (∀ g g' : Game, Relation.ReflTransGen GStep g g' →
      statusRank g.status ≤ statusRank g'.status ∧
      (g.status.isFinished = true → g'.status = g.status)) := by
  have key : ∀ g g' : Game, GStep g g' →
      (g.status = Status.pending →
        g'.status = Status.pending ∨ g'.status = Status.inProgress) ∧
      (g.status.isFinished = true → g'.status = g.status) ∧
      statusRank g.status ≤ statusRank g'.status ∧
      (g.status = Status.pending → g'.status = Status.inProgress →
        ∃ pid now, g.join pid now = (g', none)) := by
    intro g g' hstep
    cases hstep with
    | join pid now =>
      rcases join_cases g pid now with ⟨e, he⟩ | ⟨hp, he⟩
      · have h1 : (g.join pid now).1 = g := by rw [he]
        rw [h1]
        refine ⟨fun hp => .inl hp, fun _ => rfl, le_refl _, fun hp hq => ?_⟩
        rw [hp] at hq
        cases hq
      · have h1 : (g.join pid now).1 =
            { g with playerO := pid, status := .inProgress, updatedAt := now } := by
          rw [he]
        rw [h1]
        refine ⟨fun _ => .inr rfl, fun hf => ?_, ?_, fun _ _ => ⟨pid, now, he⟩⟩
        · rw [hp] at hf
          exact absurd hf (by decide)
        · rw [hp]
          show statusRank Status.pending ≤ statusRank Status.inProgress
          decide
    | move pid row col now =>
      rcases makeMove_cases g pid row col now with ⟨e, he⟩ | ⟨hip, _, _, _, hstat⟩
      · have h1 : (g.makeMove pid row col now).1 = g := by rw [he]
        rw [h1]
        refine ⟨fun hp => .inl hp, fun _ => rfl, le_refl _, fun hp hq => ?_⟩
        rw [hp] at hq
        cases hq
      · refine ⟨fun hp => ?_, fun hf => ?_, ?_, fun hp _ => ?_⟩
        · rw [hp] at hip
          cases hip
        · rw [hip] at hf
          exact absurd hf (by decide)
        · rcases hstat with h | h | h | h <;> rw [hip, h] <;> decide
        · rw [hp] at hip
          cases hip
  refine ⟨key, ?_, ?_⟩
  · intro g pid now g' hj
    rcases join_cases g pid now with ⟨e, he⟩ | ⟨hp, he⟩
    · rw [he] at hj
      exact absurd (congrArg Prod.snd hj) (by simp)
    · rw [he] at hj
      have hfst := congrArg Prod.fst hj
      simp only at hfst
      rw [← hfst]
      exact ⟨hp, rfl⟩
  · intro g g' h
    induction h with
    | refl => exact ⟨le_refl _, fun _ => rfl⟩
    | tail _ hbc ih =>
      have hk := key _ _ hbc
      refine ⟨le_trans ih.1 hk.2.2.1, fun hf => ?_⟩
      have hb := ih.2 hf
      have hc := hk.2.1 (by rw [hb]; exact hf)
      rw [hc, hb]

theorem status_machine_witness :
    gamePending.status = Status.pending ∧
      (gamePending.join "bob" 1).1.status = Status.inProgress :=
  status_machine.2.1 gamePending "bob" 1 (gamePending.join "bob" 1).1 (by decide)

theorem makeMove_success_transitions_witness :
    (gameLive.makeMove "alice" 0 0 7).1.status = Status.inProgress ∧
      (gameLive.makeMove "alice" 0 0 7).1.turn = (gameLive.getPlayerMark "alice").opponent :=
  (makeMove_success_transitions gameLive "alice" 0 0 7
      (gameLive.makeMove "alice" 0 0 7).1 (by decide) (by decide)).2.2
    (by decide) (by decide)

end TicTacToe
